import Mathlib

/-!
# go-apibox/session: key material, key file and session registry

A shallow embedding of `cookiestore.go` and `rand.go`.

* Byte slices are lists of bytes; a nil `[]byte` is the empty list.
* `store.keyPairs` is `Option (List Key)`: `none` is the nil slice that
  `GenerateKeyPairs` tests for.
* `securecookie.GenerateRandomKey(32)` is a stream `rnd : Nat → Key` read at a
  position that every call advances by one. The library returns nil when the
  system generator fails; theorems about the length of a fresh key assume
  `∀ n, (rnd n).length = 32`.
* `RandSessionId` seeds a new generator on every call; `src k` is the sequence
  of draws `r.Intn(62)` of the `k`-th call.
* Time is a natural number of nanoseconds, as in `time.Duration`.
-/

namespace Apibox

/-! ## Key material -/

abbrev Byte := UInt8

abbrev Key := List Byte

/-- One codec of `securecookie`, identified by the two keys it was built from. -/
structure Codec where
  hashKey : Key
  blockKey : Key
deriving DecidableEq, Repr

/-- Modelled from the spec: `securecookie.CodecsFromPairs`, which is not part of
the sources; "every 64 bytes (2 keys) is one KeySlot {authKey, encKey}; slots
ordered from newest (index 0, active) to oldest". Consecutive keys are paired,
a trailing single key gets a nil block key. -/
def CodecsFromPairs : List Key → List Codec
  | [] => []
  | [k] => [⟨k, []⟩]
  | h :: b :: rest => ⟨h, b⟩ :: CodecsFromPairs rest

/-- Modelled from the spec: the TTL cache `cache.Cache` of `go-apibox/cache`,
which is not part of the sources: the identifiers with the time at which each
expires. -/
structure Cache where
  entries : List (String × Nat)
deriving DecidableEq, Repr

/-- The fields of `CookieStore` the code reads or writes: `keyPairs`, the
`Codecs` of the embedded `sessions.CookieStore`, and `SessionCache`. -/
structure CookieStore where
  keyPairs : Option (List Key)
  Codecs : List Codec
  SessionCache : Cache
deriving DecidableEq, Repr

/-- `store.keyPairs[:2]`: the first two elements; the slice expression panics
(`none`) on a slice shorter than two. (Go allows reslicing up to the capacity;
every slice reaching this point has length 2 or 4.) -/
def firstTwo (keyPairs : List Key) : Option (List Key) :=
  if 2 ≤ keyPairs.length then some (keyPairs.take 2) else none

/-- The inner loop of `GenerateKeyPairs`: two calls of
`securecookie.GenerateRandomKey(32)`, appended to an empty `keyPair`. -/
def newKeyPair (rnd : Nat → Key) (pos : Nat) : List Key × Nat :=
  ([rnd pos, rnd (pos + 1)], pos + 2)

/-- The outer loop of `GenerateKeyPairs`, `genCount` iterations of
`store.keyPairs = append(keyPair, store.keyPairs[:2]...)`. -/
def generateLoop (rnd : Nat → Key) : Nat → List Key → Nat → Option (List Key × Nat)
  | 0, keyPairs, pos => some (keyPairs, pos)
  | genCount + 1, keyPairs, pos =>
    match firstTwo keyPairs with
    | none => none
    | some old => generateLoop rnd genCount ((newKeyPair rnd pos).1 ++ old) (newKeyPair rnd pos).2

/-- `CookieStore.GenerateKeyPairs`: on nil key pairs, four nil keys and two
generations; otherwise one generation. `none` is a panic of the slice
expression. The result carries the new position in the key stream. -/
def GenerateKeyPairs (rnd : Nat → Key) (store : CookieStore) (pos : Nat) :
    Option (CookieStore × Nat) :=
  let start : List Key × Nat :=
    match store.keyPairs with
    | none => (List.replicate 4 [], 2)
    | some keyPairs => (keyPairs, 1)
  match generateLoop rnd start.2 start.1 pos with
  | none => none
  | some (keyPairs, pos1) => some ({ store with keyPairs := some keyPairs }, pos1)

/-- `CookieStore.LoadKeyPairs`: `store.Codecs = securecookie.CodecsFromPairs(keyPairs...)`;
a nil slice passes no key. -/
def LoadKeyPairs (store : CookieStore) (keyPairs : Option (List Key)) : CookieStore :=
  { store with Codecs := CodecsFromPairs (keyPairs.getD []) }

/-! ## The key file -/

/-- What `os.OpenFile`, `os.Create` and `ioutil.ReadAll` find at the path of the
key file: no file (one that `os.Create` can create), a readable file with its
bytes, or a failure to open, create or read. -/
inductive KeyFile where
  | missing
  | content (buf : List Byte)
  | failure (msg : String)
deriving DecidableEq, Repr

/-- The errors of `readKeyPairs`. -/
inductive KeyFileError where
  /-- an error of the operating system, returned as it is -/
  | io (msg : String)
  /-- "Wrong key format in session key pairs file." -/
  | wrongKeyFormat
  /-- "Wrong key count in session key pairs file." -/
  | wrongKeyCount
deriving DecidableEq, Repr

/-- The format errors among the errors of `readKeyPairs`. -/
def KeyFileError.isFormatError : KeyFileError → Bool
  | .io _ => false
  | .wrongKeyFormat => true
  | .wrongKeyCount => true

/-- The outcome of `readKeyPairs`: what it returns, the bytes of the file
afterwards (`none` when there is no readable file) and the position in the key
stream. -/
structure ReadResult where
  result : Except KeyFileError (List Key)
  file : Option (List Byte)
  pos : Nat

/-- The part of `readKeyPairs` after `ioutil.ReadAll` returned `buf`. -/
def readKeyPairsFrom (rnd : Nat → Key) (pos : Nat) (buf : List Byte) : ReadResult :=
  let bufLen := buf.length
  if bufLen % 32 ≠ 0 then
    ⟨.error .wrongKeyFormat, some buf, pos⟩
  else
    let keyCount := bufLen / 32
    if keyCount = 0 then
      -- two keys, each appended to `keyPairs` and written to the file
      let keyPairs := [rnd pos, rnd (pos + 1)]
      ⟨.ok keyPairs, some (keyPairs.foldl (fun f key => f ++ key) buf), pos + 2⟩
    else if keyCount % 2 ≠ 0 ∨ keyCount > 4 then
      ⟨.error .wrongKeyCount, some buf, pos⟩
    else
      ⟨.ok ((List.range keyCount).map fun i => (buf.drop (i * 32)).take ((i + 1) * 32 - i * 32)),
        some buf, pos⟩

/-- The function `readKeyPairs`: a missing file is created empty, then read. -/
def readKeyPairs (rnd : Nat → Key) (pos : Nat) : KeyFile → ReadResult
  | .failure msg => ⟨.error (.io msg), none, pos⟩
  | .missing => readKeyPairsFrom rnd pos []
  | .content buf => readKeyPairsFrom rnd pos buf

/-- The write loop of the deferred store in `updateKeyPairs`, on the file that
`os.Create` has just truncated: `for _, key := range store.keyPairs { f.Write(key) }`. -/
def writeKeyPairs (keyPairs : Option (List Key)) : List Byte :=
  (keyPairs.getD []).foldl (fun f key => f ++ key) []

/-- One reload of `delayReloadKeyPairs`, after the change signals are drained:
`readKeyPairs`, and on success the assignment to `store.keyPairs` followed by
`LoadKeyPairs`. -/
def reloadKeyPairs (rnd : Nat → Key) (pos : Nat) (file : KeyFile) (store : CookieStore) :
    CookieStore :=
  match (readKeyPairs rnd pos file).result with
  | .ok newKeyPairs =>
    LoadKeyPairs { store with keyPairs := some newKeyPairs } (some newKeyPairs)
  | .error _ => store

/-! ## Rotation -/

/-- `time.Hour`, in nanoseconds. -/
def Hour : Nat := 3600000000000

/-- The effects of one call of `updateKeyPairs`: the error it returns, the store
and the position in the key stream afterwards, and the time at which the
goroutine it started writes the key file, when it started one. -/
structure UpdateResult where
  err : Option String
  store : CookieStore
  pos : Nat
  writeAt : Option Nat

/-- `CookieStore.updateKeyPairs` at time `now`; `stat` is what `os.Stat` gives,
an error or the modification time of the key file. `none` is a panic inside
`GenerateKeyPairs`. -/
def updateKeyPairs (rnd : Nat → Key) (now : Nat) (stat : Except String Nat)
    (store : CookieStore) (pos : Nat) : Option UpdateResult :=
  match stat with
  | .error e => some ⟨some e, store, pos, none⟩
  | .ok modTime =>
    if now < modTime + 27 * 24 * Hour then
      some ⟨none, store, pos, none⟩
    else
      match GenerateKeyPairs rnd store pos with
      | none => none
      | some (store1, pos1) => some ⟨none, store1, pos1, some (now + 3 * 24 * Hour)⟩

/-- The checks of the file-backed goroutine of `NewCookieStore`, one an hour from
`now` on, on a key file whose modification time stays `modTime`: the store and
the position in the key stream after `n` of them. -/
def hourlyChecks (rnd : Nat → Key) (modTime : Nat) :
    Nat → Nat → CookieStore × Nat → Option (CookieStore × Nat)
  | 0, _, st => some st
  | n + 1, now, (store, pos) =>
    match updateKeyPairs rnd now (.ok modTime) store pos with
    | none => none
    | some r => hourlyChecks rnd modTime n (now + Hour) (r.store, r.pos)

/-- The second branch of `NewCookieStore` (a key file) up to the start of the
goroutines: `readKeyPairs`, then `LoadKeyPairs`. -/
def newFileBacked (rnd : Nat → Key) (pos : Nat) (file : KeyFile) :
    Except KeyFileError CookieStore :=
  match (readKeyPairs rnd pos file).result with
  | .error e => .error e
  | .ok keyPairs => .ok (LoadKeyPairs ⟨some keyPairs, [], ⟨[]⟩⟩ (some keyPairs))

/-- The first branch of `NewCookieStore` (no key file) up to the start of the
goroutine: `GenerateKeyPairs` on the new store, then `LoadKeyPairs`. -/
def newSelfGenerating (rnd : Nat → Key) (pos : Nat) : Option (CookieStore × Nat) :=
  match GenerateKeyPairs rnd ⟨none, [], ⟨[]⟩⟩ pos with
  | none => none
  | some (store, pos1) => some (LoadKeyPairs store store.keyPairs, pos1)

/-- One turn of the self-generating goroutine of `NewCookieStore`: after 27 days
`GenerateKeyPairs`, after 3 more days `LoadKeyPairs(store.keyPairs)`. -/
def rotationCycle (rnd : Nat → Key) (st : CookieStore × Nat) : Option (CookieStore × Nat) :=
  match GenerateKeyPairs rnd st.1 st.2 with
  | none => none
  | some (store, pos) => some (LoadKeyPairs store store.keyPairs, pos)

/-- The self-generating store after construction and `n` turns of the goroutine. -/
def selfGenerating (rnd : Nat → Key) (pos : Nat) : Nat → Option (CookieStore × Nat)
  | 0 => newSelfGenerating rnd pos
  | n + 1 => (selfGenerating rnd pos n).bind (rotationCycle rnd)

/-! ## Session identifiers -/

/-- The alphabet `letters` of `rand.go`. -/
def letters : List Char :=
  "0123456789abcdefghijklmnopqrstuvwxyzABCDEFGHIJKLMNOPQRSTUVWXYZ".toList

/-- `RandSessionId`: ten letters, the `i`-th one `letters[r.Intn(len(letters))]`;
`intn i` is the `i`-th draw of the generator seeded by the call. -/
def RandSessionId (intn : Nat → Fin 62) : String :=
  String.mk ((List.range 10).map fun i => letters.getD (intn i).val '0')

/-- `cache.NewCacheEx(time.Hour, time.Minute)`: the lifetime of an entry. -/
def defaultExpiration : Nat := Hour

/-- Modelled from the spec: presence of an identifier in the registry, which is
not part of the sources; an entry whose lifetime has elapsed is absent. -/
def Cache.live (c : Cache) (now : Nat) (id : String) : Bool :=
  c.entries.any fun e => e.1 == id && decide (now < e.2)

/-- Modelled from the spec: the entry of `id` with a full lifetime from `now`. -/
def Cache.put (c : Cache) (now : Nat) (id : String) : Cache :=
  ⟨(id, now + defaultExpiration) :: c.entries.filter fun e => !(e.1 == id)⟩

/-- Modelled from the spec: `Cache.Get` of `go-apibox/cache`, which is not part
of the sources; "`touchOrCheck(id) -> bool`: returns true and refreshes TTL if
`id` is present; false if absent or expired". -/
def Cache.Get (c : Cache) (now : Nat) (id : String) : Cache × Bool :=
  if c.live now id then (c.put now id, true) else (c, false)

/-- Modelled from the spec: `Cache.SetIfNotExist` of `go-apibox/cache`, which is
not part of the sources; it "inserts it only if absent" and tells whether it
did. -/
def Cache.SetIfNotExist (c : Cache) (now : Nat) (id : String) : Cache × Bool :=
  if c.live now id then (c, false) else (c.put now id, true)

/-- A value of type `interface{}` in a session payload. -/
inductive Value where
  | str (s : String)
  | int (i : Int)
  | bool (b : Bool)
  | bytes (b : List Byte)
deriving DecidableEq, Repr

/-- The map `session.Values`, `map[interface{}]interface{}`, as an association
list with at most one entry per key. -/
abbrev Values := List (Value × Value)

/-- `m[key]` with the comma-ok form. -/
def Values.get? (m : Values) (key : Value) : Option Value :=
  (m.find? fun e => e.1 == key).map Prod.snd

/-- `m[key] = val`. -/
def Values.set (m : Values) (key val : Value) : Values :=
  if m.any (fun e => e.1 == key) then
    m.map fun e => if e.1 == key then (key, val) else e
  else m ++ [(key, val)]

/-- The part of `sessions.Session` the code uses, with the name it was asked
under. -/
structure GorillaSession where
  name : String
  Values : Values
deriving DecidableEq, Repr

/-- The request, as far as the embedded store looks at it: its cookie header. -/
structure Request where
  cookie : String
deriving DecidableEq, Repr

/-- The type `Session` of `session.go`: the embedded session and the request. -/
structure Session where
  session : GorillaSession
  r : Request
deriving DecidableEq, Repr

/-- How `CookieStore.Get` fails. -/
inductive GetError where
  /-- the error of the embedded `CookieStore.Get`, returned with a nil session -/
  | upstream (msg : String)
  /-- "Invalid session ID!" -/
  | invalidSessionId
  /-- the embedded store returned neither a session nor an error: the read of
  `session.Values` dereferences nil -/
  | nilSession
deriving DecidableEq, Repr

/-- The loop `for { sessionId = RandSessionId(); if SetIfNotExist {break} }`:
`src k` is the generator of the `k`-th call of `RandSessionId`. `none` when the
loop is still running after `fuel` candidates. -/
def allocate (src : Nat → Nat → Fin 62) (now : Nat) : Nat → Nat → Cache → Option (String × Cache)
  | 0, _, _ => none
  | fuel + 1, k, c =>
    let sessionId := RandSessionId (src k)
    match c.SetIfNotExist now sessionId with
    | (c1, true) => some (sessionId, c1)
    | (c1, false) => allocate src now fuel (k + 1) c1

/-- The branch `if newSession` of `CookieStore.Get` and its return. -/
def newSession (src : Nat → Nat → Fin 62) (now fuel : Nat) (session : GorillaSession)
    (r : Request) (c : Cache) : Option (Except GetError Session × Cache) :=
  match allocate src now fuel 0 c with
  | none => none
  | some (sessionId, c1) =>
    some (.ok ⟨{ session with Values := session.Values.set (.str "session_id") (.str sessionId) }, r⟩,
      c1)

/-- `CookieStore.Get` at time `now`. `upstreamGet` is the embedded
`sessions.CookieStore.Get`, which returns a session or nil and an error or nil.
The result is what `Get` returns with `SessionCache` afterwards; `none` when the
allocation loop is still running after `fuel` candidates. -/
def CookieStore.Get (s : CookieStore)
    (upstreamGet : Request → String → Option GorillaSession × Option String)
    (src : Nat → Nat → Fin 62) (now fuel : Nat) (r : Request) (name : String) :
    Option (Except GetError Session × Cache) :=
  match upstreamGet r name with
  | (none, some err) => some (.error (.upstream err), s.SessionCache)
  | (none, none) => some (.error .nilSession, s.SessionCache)
  | (some session0, err) =>
    let session : GorillaSession :=
      if err.isSome then { session0 with Values := [] } else session0
    match session.Values.get? (.str "session_id") with
    | some (.str sessionId) =>
      match s.SessionCache.Get now sessionId with
      | (c1, true) => some (.ok ⟨session, r⟩, c1)
      | (c1, false) => newSession src now fuel { session with Values := [] } r c1
    | some _ => some (.error .invalidSessionId, s.SessionCache)
    | none => newSession src now fuel session r s.SessionCache

/-! ## Sample inputs -/

/-- A key stream of 32-byte keys: the `n`-th key repeats the byte `n`. -/
def sampleKeys (n : Nat) : Key := List.replicate 32 (UInt8.ofNat n)

/-- A key file of one generation: the keys `sampleKeys 100` and `sampleKeys 101`. -/
def sampleFile : List Byte := sampleKeys 100 ++ sampleKeys 101

/-- A store with no key material and an empty registry. -/
def emptyStore : CookieStore := ⟨none, [], ⟨[]⟩⟩

/-- The store that `NewCookieStore` builds from the key file `sampleFile`. -/
def sampleStore : CookieStore :=
  ⟨some [sampleKeys 100, sampleKeys 101], [⟨sampleKeys 100, sampleKeys 101⟩], ⟨[]⟩⟩

/-- A decoded payload that carries the identifier "0000000000" and one more
value. -/
def samplePayload : GorillaSession :=
  ⟨"sid", [(.str "session_id", .str "0000000000"), (.str "user", .str "alice")]⟩

/-- A decoded payload without an identifier. -/
def sampleAnonymous : GorillaSession := ⟨"sid", [(.str "user", .str "alice")]⟩

/-- An embedded store that decodes every request to `samplePayload`. -/
def sampleUpstream (_ : Request) (_ : String) : Option GorillaSession × Option String :=
  (some samplePayload, none)

/-- An embedded store that decodes every request to `sampleAnonymous`. -/
def anonymousUpstream (_ : Request) (_ : String) : Option GorillaSession × Option String :=
  (some sampleAnonymous, none)

/-- Generators whose every draw is 0: each candidate is "0000000000". -/
def zeroDraws (_ : Nat) (_ : Nat) : Fin 62 := 0

/-- A store whose registry holds the identifier "0000000000" until time 10. -/
def liveStore : CookieStore := ⟨none, [], ⟨[("0000000000", 10)]⟩⟩

/-! ## Lemmas on the key file -/

theorem foldl_append_eq_flatten (keys : List Key) (init : List Byte) :
    keys.foldl (fun f key => f ++ key) init = init ++ keys.flatten := by
  induction keys generalizing init with
  | nil => simp
  | cons k ks ih => simp [List.foldl_cons, ih, List.append_assoc]

theorem flatten_chunks (buf : List Byte) (n : Nat) :
    ((List.range n).map fun i =>
      (buf.drop (i * 32)).take ((i + 1) * 32 - i * 32)).flatten = buf.take (n * 32) := by
  induction n with
  | zero => simp
  | succ n ih =>
    have h32 : (n + 1) * 32 - n * 32 = 32 := by omega
    have hadd : (n + 1) * 32 = n * 32 + 32 := by omega
    rw [List.range_succ, List.map_append, List.flatten_append, ih]
    simp only [List.map_cons, List.map_nil, List.flatten_cons, List.flatten_nil,
      List.append_nil, h32]
    rw [hadd, List.take_add]

theorem chunk_length (buf : List Byte) (n i : Nat) (hn : n * 32 ≤ buf.length) (hi : i < n) :
    ((buf.drop (i * 32)).take ((i + 1) * 32 - i * 32)).length = 32 := by
  simp only [List.length_take, List.length_drop]
  omega

theorem readKeyPairsFrom_wrongKeyFormat (rnd : Nat → Key) (pos : Nat) (buf : List Byte)
    (h : buf.length % 32 ≠ 0) :
    readKeyPairsFrom rnd pos buf = ⟨.error .wrongKeyFormat, some buf, pos⟩ := by
  simp [readKeyPairsFrom, h]

theorem readKeyPairsFrom_empty (rnd : Nat → Key) (pos : Nat) (buf : List Byte)
    (h : buf.length = 0) :
    readKeyPairsFrom rnd pos buf =
      ⟨.ok [rnd pos, rnd (pos + 1)], some (rnd pos ++ rnd (pos + 1)), pos + 2⟩ := by
  have hb : buf = [] := List.length_eq_zero.mp h
  subst hb
  simp [readKeyPairsFrom]

theorem readKeyPairsFrom_wrongKeyCount (rnd : Nat → Key) (pos : Nat) (buf : List Byte)
    (h32 : buf.length % 32 = 0)
    (h : (buf.length / 32) % 2 ≠ 0 ∨ buf.length / 32 > 4) :
    readKeyPairsFrom rnd pos buf = ⟨.error .wrongKeyCount, some buf, pos⟩ := by
  have hk : ¬ buf.length / 32 = 0 := by omega
  simp only [readKeyPairsFrom, h32, ne_eq, not_true_eq_false, if_false, hk, h, if_true]

theorem readKeyPairsFrom_split (rnd : Nat → Key) (pos : Nat) (buf : List Byte)
    (h : buf.length = 64 ∨ buf.length = 128) :
    readKeyPairsFrom rnd pos buf =
      ⟨.ok ((List.range (buf.length / 32)).map fun i =>
        (buf.drop (i * 32)).take ((i + 1) * 32 - i * 32)), some buf, pos⟩ := by
  have h32 : buf.length % 32 = 0 := by omega
  have hk : ¬ buf.length / 32 = 0 := by omega
  have hc : ¬ ((buf.length / 32) % 2 ≠ 0 ∨ buf.length / 32 > 4) := by omega
  simp only [readKeyPairsFrom, h32, ne_eq, not_true_eq_false, if_false, hk, hc]

/-! ## The key file: claims -/

/-- C1: `readKeyPairs` on a readable key file returns a format error exactly when
the byte length is not 0, 64 or 128: for every length that is not a multiple of
32, for every multiple of 32 that is not a multiple of 64 and for every length
above 128; for lengths 64 and 128 it returns the content split in order into
consecutive 32-byte keys. -/
theorem readKeyPairs_format_error_iff (rnd : Nat → Key) (pos : Nat) (buf : List Byte) :
    ((∃ e, (readKeyPairs rnd pos (.content buf)).result = .error e ∧ e.isFormatError = true) ↔
      ¬ (buf.length = 0 ∨ buf.length = 64 ∨ buf.length = 128)) ∧
    (buf.length % 32 ≠ 0 →
      (readKeyPairs rnd pos (.content buf)).result = .error .wrongKeyFormat) ∧
    (buf.length % 32 = 0 → buf.length % 64 ≠ 0 →
      (readKeyPairs rnd pos (.content buf)).result = .error .wrongKeyCount) ∧
    (128 < buf.length →
      ∃ e, (readKeyPairs rnd pos (.content buf)).result = .error e ∧ e.isFormatError = true) ∧
    (buf.length = 64 ∨ buf.length = 128 →
      ∃ keys, (readKeyPairs rnd pos (.content buf)).result = .ok keys ∧
        keys.length = buf.length / 32 ∧ (∀ k ∈ keys, k.length = 32) ∧ keys.flatten = buf) := by
  have hsplit : buf.length = 64 ∨ buf.length = 128 →
      ∃ keys, (readKeyPairs rnd pos (.content buf)).result = .ok keys ∧
        keys.length = buf.length / 32 ∧ (∀ k ∈ keys, k.length = 32) ∧ keys.flatten = buf := by
    intro h
    refine ⟨_, by rw [readKeyPairs, readKeyPairsFrom_split rnd pos buf h], by simp, ?_, ?_⟩
    · intro k hk
      obtain ⟨i, hi, rfl⟩ := List.mem_map.mp hk
      exact chunk_length buf (buf.length / 32) i (by omega) (List.mem_range.mp hi)
    · rw [flatten_chunks]
      exact List.take_of_length_le (by omega)
  have hfmt : buf.length % 32 ≠ 0 →
      (readKeyPairs rnd pos (.content buf)).result = .error .wrongKeyFormat := by
    intro h
    rw [readKeyPairs, readKeyPairsFrom_wrongKeyFormat rnd pos buf h]
  have hcnt : buf.length % 32 = 0 → buf.length ≠ 0 →
      ((buf.length / 32) % 2 ≠ 0 ∨ buf.length / 32 > 4) →
      (readKeyPairs rnd pos (.content buf)).result = .error .wrongKeyCount := by
    intro h32 _ h
    rw [readKeyPairs, readKeyPairsFrom_wrongKeyCount rnd pos buf h32 h]
  have herr : ¬ (buf.length = 0 ∨ buf.length = 64 ∨ buf.length = 128) →
      ∃ e, (readKeyPairs rnd pos (.content buf)).result = .error e ∧ e.isFormatError = true := by
    intro h
    by_cases h32 : buf.length % 32 = 0
    · exact ⟨_, hcnt h32 (by omega) (by omega), rfl⟩
    · exact ⟨_, hfmt h32, rfl⟩
  refine ⟨⟨?_, herr⟩, hfmt, ?_, ?_, hsplit⟩
  · rintro ⟨e, he, hfe⟩ hlen
    rcases hlen with h0 | h64 | h128
    · rw [readKeyPairs, readKeyPairsFrom_empty rnd pos buf h0] at he
      cases he
    · obtain ⟨keys, hk, _⟩ := hsplit (Or.inl h64)
      rw [hk] at he
      cases he
    · obtain ⟨keys, hk, _⟩ := hsplit (Or.inr h128)
      rw [hk] at he
      cases he
  · intro h32 h64
    exact hcnt h32 (by omega) (by omega)
  · intro h
    exact herr (by omega)

/-- Witness of C1 on the 64-byte file `sampleFile`. -/
theorem readKeyPairs_format_error_iff_witness :
    ∃ keys, (readKeyPairs sampleKeys 0 (.content sampleFile)).result = .ok keys ∧
      keys.length = sampleFile.length / 32 ∧ (∀ k ∈ keys, k.length = 32) ∧
      keys.flatten = sampleFile :=
  (readKeyPairs_format_error_iff sampleKeys 0 sampleFile).2.2.2.2 (Or.inl (by decide))

/-- C2, as the claim states it, fails: on an empty key file `readKeyPairs`
returns two keys, not four, and leaves 64 bytes in the file, not 128. -/
theorem readKeyPairs_empty_two_keys :
    (readKeyPairs sampleKeys 0 (.content [])).result = .ok [sampleKeys 0, sampleKeys 1] ∧
    (readKeyPairs sampleKeys 0 (.content [])).file.map List.length = some 64 ∧
    ¬ ∃ keys, (readKeyPairs sampleKeys 0 (.content [])).result = .ok keys ∧ keys.length = 4 := by
  have h := readKeyPairsFrom_empty sampleKeys 0 [] rfl
  refine ⟨by rw [readKeyPairs, h], by rw [readKeyPairs, h]; simp [sampleKeys], ?_⟩
  rintro ⟨keys, hk, hlen⟩
  rw [readKeyPairs, h] at hk
  cases hk
  simp at hlen

/-- C2, amended: on an empty key file, or one that did not exist and was created
empty, `readKeyPairs` draws one pair of 2 keys of 32 bytes each from the
generator, writes exactly those 64 bytes to the file and returns them: the file
afterwards is the concatenation of the returned keys. -/
theorem readKeyPairs_empty_generates_pair (rnd : Nat → Key) (pos : Nat) (file : KeyFile)
    (hfile : file = .missing ∨ file = .content []) (hrnd : ∀ n, (rnd n).length = 32) :
    ∃ keys bytes, (readKeyPairs rnd pos file).result = .ok keys ∧
      (readKeyPairs rnd pos file).file = some bytes ∧
      (readKeyPairs rnd pos file).pos = pos + 2 ∧
      keys = [rnd pos, rnd (pos + 1)] ∧ (∀ k ∈ keys, k.length = 32) ∧
      bytes.length = 64 ∧ bytes = keys.flatten := by
  have h := readKeyPairsFrom_empty rnd pos [] rfl
  have hread : readKeyPairs rnd pos file =
      ⟨.ok [rnd pos, rnd (pos + 1)], some (rnd pos ++ rnd (pos + 1)), pos + 2⟩ := by
    rcases hfile with rfl | rfl <;> rw [readKeyPairs, h]
  refine ⟨_, _, by rw [hread], by rw [hread], by rw [hread], rfl, ?_, ?_, by simp⟩
  · intro k hk
    simp only [List.mem_cons, List.mem_singleton, List.not_mem_nil, or_false] at hk
    rcases hk with rfl | rfl <;> exact hrnd _
  · simp [hrnd]

/-- Witness of the amended C2 on a missing key file. -/
theorem readKeyPairs_empty_generates_pair_witness :
    ∃ keys bytes, (readKeyPairs sampleKeys 0 .missing).result = .ok keys ∧
      (readKeyPairs sampleKeys 0 .missing).file = some bytes ∧
      (readKeyPairs sampleKeys 0 .missing).pos = 0 + 2 ∧
      keys = [sampleKeys 0, sampleKeys (0 + 1)] ∧ (∀ k ∈ keys, k.length = 32) ∧
      bytes.length = 64 ∧ bytes = keys.flatten :=
  readKeyPairs_empty_generates_pair sampleKeys 0 .missing (Or.inl rfl)
    (fun n => by simp [sampleKeys])

/-- C3: for a key file of 64 or 128 bytes, `readKeyPairs` followed by the write
loop of the deferred store on the loaded keys gives the original bytes. -/
theorem readKeyPairs_write_roundtrip (rnd : Nat → Key) (pos : Nat) (buf : List Byte)
    (h : buf.length = 64 ∨ buf.length = 128) :
    ∃ keys, (readKeyPairs rnd pos (.content buf)).result = .ok keys ∧
      writeKeyPairs (some keys) = buf := by
  refine ⟨_, by rw [readKeyPairs, readKeyPairsFrom_split rnd pos buf h], ?_⟩
  simp only [writeKeyPairs, Option.getD_some]
  rw [foldl_append_eq_flatten, flatten_chunks, List.nil_append]
  exact List.take_of_length_le (by omega)

/-- Witness of C3 on the 64-byte file `sampleFile`. -/
theorem readKeyPairs_write_roundtrip_witness :
    ∃ keys, (readKeyPairs sampleKeys 0 (.content sampleFile)).result = .ok keys ∧
      writeKeyPairs (some keys) = sampleFile :=
  readKeyPairs_write_roundtrip sampleKeys 0 sampleFile (Or.inl (by decide))

/-! ## Key generation and rotation: lemmas -/

theorem GenerateKeyPairs_nil (rnd : Nat → Key) (store : CookieStore) (pos : Nat)
    (h : store.keyPairs = none) :
    GenerateKeyPairs rnd store pos =
      some ({ store with
        keyPairs := some [rnd (pos + 2), rnd (pos + 3), rnd pos, rnd (pos + 1)] }, pos + 4) := by
  simp [GenerateKeyPairs, h, generateLoop, firstTwo, newKeyPair]

theorem GenerateKeyPairs_cons (rnd : Nat → Key) (store : CookieStore) (pos : Nat)
    (a b : Key) (rest : List Key) (h : store.keyPairs = some (a :: b :: rest)) :
    GenerateKeyPairs rnd store pos =
      some ({ store with keyPairs := some [rnd pos, rnd (pos + 1), a, b] }, pos + 2) := by
  simp [GenerateKeyPairs, h, generateLoop, firstTwo, newKeyPair]

theorem updateKeyPairs_due (rnd : Nat → Key) (now modTime : Nat) (store : CookieStore)
    (pos : Nat) (a b : Key) (rest : List Key) (h : store.keyPairs = some (a :: b :: rest))
    (hdue : modTime + 27 * 24 * Hour ≤ now) :
    updateKeyPairs rnd now (.ok modTime) store pos =
      some ⟨none, { store with keyPairs := some [rnd pos, rnd (pos + 1), a, b] }, pos + 2,
        some (now + 3 * 24 * Hour)⟩ := by
  have hlt : ¬ now < modTime + 27 * 24 * Hour := by omega
  simp only [updateKeyPairs, hlt, if_false, GenerateKeyPairs_cons rnd store pos a b rest h]

theorem updateKeyPairs_not_due (rnd : Nat → Key) (now modTime : Nat) (store : CookieStore)
    (pos : Nat) (h : now < modTime + 27 * 24 * Hour) :
    updateKeyPairs rnd now (.ok modTime) store pos = some ⟨none, store, pos, none⟩ := by
  simp only [updateKeyPairs, h, if_true]

theorem hourlyChecks_succ_due (rnd : Nat → Key) (modTime n now : Nat) (store : CookieStore)
    (pos : Nat) (a b : Key) (rest : List Key) (h : store.keyPairs = some (a :: b :: rest))
    (hdue : modTime + 27 * 24 * Hour ≤ now) :
    hourlyChecks rnd modTime (n + 1) now (store, pos) =
      hourlyChecks rnd modTime n (now + Hour)
        ({ store with keyPairs := some [rnd pos, rnd (pos + 1), a, b] }, pos + 2) := by
  rw [hourlyChecks, updateKeyPairs_due rnd now modTime store pos a b rest h hdue]

theorem hourlyChecks_due (rnd : Nat → Key) (modTime : Nat) (n : Nat) :
    ∀ (m now : Nat) (store : CookieStore) (pos : Nat) (a b : Key) (rest : List Key) (q : Nat),
      m = n + 2 → q = pos + 2 * n →
      store.keyPairs = some (a :: b :: rest) → modTime + 27 * 24 * Hour ≤ now →
      hourlyChecks rnd modTime m now (store, pos) =
        some ({ store with keyPairs := some [rnd (q + 2), rnd (q + 3), rnd q, rnd (q + 1)] },
          q + 4) := by
  induction n with
  | zero =>
    intro m now store pos a b rest q hm hq h hdue
    have hq2 : q = pos := by omega
    have hm2 : m = 0 + 1 + 1 := by omega
    subst hq2 hm2
    rw [hourlyChecks_succ_due rnd modTime (0 + 1) now store q a b rest h hdue,
      hourlyChecks_succ_due rnd modTime 0 (now + Hour) _ (q + 2) (rnd q) (rnd (q + 1)) [a, b]
        rfl (Nat.le_add_right_of_le hdue),
      hourlyChecks]
  | succ n ih =>
    intro m now store pos a b rest q hm hq h hdue
    have hm2 : m = (n + 2) + 1 := by omega
    subst hm2
    rw [hourlyChecks_succ_due rnd modTime (n + 2) now store pos a b rest h hdue]
    exact ih (n + 2) (now + Hour) _ (pos + 2) (rnd pos) (rnd (pos + 1)) [a, b] q rfl
      (by omega) rfl (Nat.le_add_right_of_le hdue)

theorem selfGenerating_eq (rnd : Nat → Key) (pos : Nat) (n : Nat) :
    selfGenerating rnd pos n =
      some (⟨some [rnd (pos + 2 * n + 2), rnd (pos + 2 * n + 3), rnd (pos + 2 * n),
          rnd (pos + 2 * n + 1)],
        [⟨rnd (pos + 2 * n + 2), rnd (pos + 2 * n + 3)⟩,
          ⟨rnd (pos + 2 * n), rnd (pos + 2 * n + 1)⟩], ⟨[]⟩⟩, pos + 2 * n + 4) := by
  induction n with
  | zero =>
    simp [selfGenerating, newSelfGenerating, GenerateKeyPairs_nil, LoadKeyPairs, CodecsFromPairs]
  | succ n ih =>
    rw [selfGenerating, ih]
    simp only [Option.some_bind, rotationCycle]
    rw [GenerateKeyPairs_cons rnd _ _ _ _ _ rfl]
    simp only [LoadKeyPairs, Option.getD_some, CodecsFromPairs]
    have e1 : pos + 2 * n + 4 = pos + 2 * (n + 1) + 2 := by omega
    have e2 : pos + 2 * n + 4 + 1 = pos + 2 * (n + 1) + 3 := by omega
    have e3 : pos + 2 * n + 2 = pos + 2 * (n + 1) := by omega
    have e4 : pos + 2 * n + 3 = pos + 2 * (n + 1) + 1 := by omega
    have e5 : pos + 2 * n + 4 + 2 = pos + 2 * (n + 1) + 4 := by omega
    rw [e5, e2, e1, e4, e3]

/-! ## Key generation and rotation: claims -/

/-- C7: `GenerateKeyPairs` on a store with no key material yields exactly 4 keys
freshly drawn from the generator, each of 32 bytes; on a store holding 2 or 4
keys it yields exactly 4 keys, a fresh pair at indices 0 and 1 followed by the
previously leading pair at indices 2 and 3, an older pair being dropped. The
key count after a call is even and between 2 and 4. -/
theorem GenerateKeyPairs_four_keys (rnd : Nat → Key) (store : CookieStore) (pos : Nat)
    (hrnd : ∀ n, (rnd n).length = 32) :
    (store.keyPairs = none →
      GenerateKeyPairs rnd store pos =
        some ({ store with
          keyPairs := some [rnd (pos + 2), rnd (pos + 3), rnd pos, rnd (pos + 1)] }, pos + 4) ∧
      ∀ k ∈ [rnd (pos + 2), rnd (pos + 3), rnd pos, rnd (pos + 1)], k.length = 32 ∧ k ≠ []) ∧
    (∀ a b rest, store.keyPairs = some (a :: b :: rest) →
      (rest.length = 0 ∨ rest.length = 2) →
      GenerateKeyPairs rnd store pos =
        some ({ store with keyPairs := some [rnd pos, rnd (pos + 1), a, b] }, pos + 2) ∧
      (rnd pos).length = 32 ∧ (rnd (pos + 1)).length = 32) ∧
    ((store.keyPairs = none ∨
        ∃ keyPairs, store.keyPairs = some keyPairs ∧ (keyPairs.length = 2 ∨ keyPairs.length = 4)) →
      ∃ store1 pos1 keyPairs1, GenerateKeyPairs rnd store pos = some (store1, pos1) ∧
        store1.keyPairs = some keyPairs1 ∧ keyPairs1.length = 4 ∧
        keyPairs1.length % 2 = 0 ∧ 2 ≤ keyPairs1.length ∧ keyPairs1.length ≤ 4) := by
  refine ⟨?_, ?_, ?_⟩
  · intro h
    refine ⟨GenerateKeyPairs_nil rnd store pos h, ?_⟩
    intro k hk
    simp only [List.mem_cons, List.mem_singleton, List.not_mem_nil, or_false] at hk
    have hlen : k.length = 32 := by
      rcases hk with rfl | rfl | rfl | rfl <;> exact hrnd _
    refine ⟨hlen, ?_⟩
    intro hnil
    rw [hnil] at hlen
    simp at hlen
  · intro a b rest h _
    exact ⟨GenerateKeyPairs_cons rnd store pos a b rest h, hrnd _, hrnd _⟩
  · rintro (h | ⟨keyPairs, h, hlen⟩)
    · exact ⟨_, _, _, GenerateKeyPairs_nil rnd store pos h, rfl, by simp, by simp, by simp,
        by simp⟩
    · match keyPairs, h, hlen with
      | a :: b :: rest, h, _ =>
        exact ⟨_, _, _, GenerateKeyPairs_cons rnd store pos a b rest h, rfl, by simp, by simp,
          by simp, by simp⟩
      | [], _, hlen => simp at hlen
      | [_], _, hlen => simp at hlen

/-- Witness of C7 on the store built from `sampleFile`, which holds 2 keys. -/
theorem GenerateKeyPairs_four_keys_witness :
    ∃ store1 pos1 keyPairs1, GenerateKeyPairs sampleKeys sampleStore 0 = some (store1, pos1) ∧
      store1.keyPairs = some keyPairs1 ∧ keyPairs1.length = 4 ∧
      keyPairs1.length % 2 = 0 ∧ 2 ≤ keyPairs1.length ∧ keyPairs1.length ≤ 4 :=
  (GenerateKeyPairs_four_keys sampleKeys sampleStore 0 (fun n => by simp [sampleKeys])).2.2
    (Or.inr ⟨[sampleKeys 100, sampleKeys 101], rfl, Or.inl rfl⟩)

/-- C8: in self-generating mode, in every rotation cycle, the pre-generation step
`GenerateKeyPairs` leaves the loaded codecs unchanged while `store.keyPairs`
already leads with the new pair; after the activation step `LoadKeyPairs` the
first loaded pair is the new one and the pair that was active before is still
among the loaded pairs. -/
theorem rotation_pregenerates_then_activates (rnd : Nat → Key) (pos n : Nat) :
    ∃ store p store1 p1 old,
      selfGenerating rnd pos n = some (store, p) ∧
      store.Codecs.head? = some old ∧
      GenerateKeyPairs rnd store p = some (store1, p1) ∧
      store1.Codecs = store.Codecs ∧
      store1.keyPairs.map (List.take 2) = some [rnd p, rnd (p + 1)] ∧
      (LoadKeyPairs store1 store1.keyPairs).Codecs.head? = some ⟨rnd p, rnd (p + 1)⟩ ∧
      old ∈ (LoadKeyPairs store1 store1.keyPairs).Codecs ∧
      selfGenerating rnd pos (n + 1) = some (LoadKeyPairs store1 store1.keyPairs, p1) := by
  refine ⟨_, _, _, _, _, selfGenerating_eq rnd pos n, rfl,
    GenerateKeyPairs_cons rnd _ _ _ _ _ rfl, rfl, rfl, rfl, ?_, ?_⟩
  · simp [LoadKeyPairs, CodecsFromPairs]
  · rw [selfGenerating, selfGenerating_eq rnd pos n]
    simp only [Option.some_bind, rotationCycle]
    rw [GenerateKeyPairs_cons rnd _ _ _ _ _ rfl]

/-- C9: one reload of `delayReloadKeyPairs` either, when `readKeyPairs` succeeds,
replaces both `store.keyPairs` and the loaded codecs by the keys read (for a
non-empty file, the keys whose concatenation is the file), or, when it fails,
leaves the store exactly as it was. -/
theorem reloadKeyPairs_all_or_nothing (rnd : Nat → Key) (pos : Nat) (file : KeyFile)
    (store : CookieStore) :
    (∃ keys, (readKeyPairs rnd pos file).result = .ok keys ∧
        reloadKeyPairs rnd pos file store =
          ⟨some keys, CodecsFromPairs keys, store.SessionCache⟩ ∧
        ∀ buf, file = .content buf → buf ≠ [] → keys.flatten = buf) ∨
    (∃ e, (readKeyPairs rnd pos file).result = .error e ∧
        reloadKeyPairs rnd pos file store = store) := by
  cases hres : (readKeyPairs rnd pos file).result with
  | error e =>
    right
    exact ⟨e, rfl, by simp [reloadKeyPairs, hres]⟩
  | ok keys =>
    left
    refine ⟨keys, rfl, by simp [reloadKeyPairs, hres, LoadKeyPairs], ?_⟩
    intro buf hfile hbuf
    subst hfile
    have hlen0 : buf.length ≠ 0 := fun h => hbuf (List.length_eq_zero.mp h)
    by_cases h32 : buf.length % 32 = 0
    · by_cases hc : (buf.length / 32) % 2 ≠ 0 ∨ buf.length / 32 > 4
      · rw [readKeyPairs, readKeyPairsFrom_wrongKeyCount rnd pos buf h32 hc] at hres
        cases hres
      · have hlen : buf.length = 64 ∨ buf.length = 128 := by omega
        rw [readKeyPairs, readKeyPairsFrom_split rnd pos buf hlen] at hres
        simp only [Except.ok.injEq] at hres
        rw [← hres, flatten_chunks]
        exact List.take_of_length_le (by omega)
    · rw [readKeyPairs, readKeyPairsFrom_wrongKeyFormat rnd pos buf h32] at hres
      cases hres

/-- C10, at a key file of one generation that is 27 days old: the first check
schedules its write 72 hours later, the 72 hourly checks that run before that
write each generate a generation (144 keys drawn), and what the write then
finds in `store.keyPairs` is the last two of them; the generation that the file
held is gone. -/
theorem hourlyChecks_regenerate_every_hour :
    newFileBacked sampleKeys 0 (.content sampleFile) = .ok sampleStore ∧
    (updateKeyPairs sampleKeys (27 * 24 * Hour) (.ok 0) sampleStore 0).map (fun r => r.writeAt) =
      some (some (27 * 24 * Hour + 72 * Hour)) ∧
    hourlyChecks sampleKeys 0 72 (27 * 24 * Hour) (sampleStore, 0) =
      some (⟨some [sampleKeys 142, sampleKeys 143, sampleKeys 140, sampleKeys 141],
        sampleStore.Codecs, sampleStore.SessionCache⟩, 144) ∧
    (hourlyChecks sampleKeys 0 72 (27 * 24 * Hour) (sampleStore, 0)).map
        (fun st => writeKeyPairs st.1.keyPairs) =
      some (sampleKeys 142 ++ sampleKeys 143 ++ sampleKeys 140 ++ sampleKeys 141) ∧
    sampleKeys 142 ++ sampleKeys 143 ++ sampleKeys 140 ++ sampleKeys 141 ≠
      sampleKeys 0 ++ sampleKeys 1 ++ sampleFile := by
  have hchecks := hourlyChecks_due sampleKeys 0 70 72 (27 * 24 * Hour) sampleStore 0
    (sampleKeys 100) (sampleKeys 101) [] 140 rfl rfl rfl (by omega)
  refine ⟨?_, ?_, hchecks, ?_, by decide⟩
  · have hlen : sampleFile.length = 64 ∨ sampleFile.length = 128 := Or.inl (by decide)
    have hkeys : ((List.range (sampleFile.length / 32)).map fun i =>
        (sampleFile.drop (i * 32)).take ((i + 1) * 32 - i * 32)) =
        [sampleKeys 100, sampleKeys 101] := by
      decide
    simp only [newFileBacked, readKeyPairs, readKeyPairsFrom_split sampleKeys 0 sampleFile hlen,
      hkeys]
    rfl
  · rw [updateKeyPairs_due sampleKeys (27 * 24 * Hour) 0 sampleStore 0
      (sampleKeys 100) (sampleKeys 101) [] rfl (by omega)]
    simp
  · rw [hchecks]
    simp [writeKeyPairs]

/-! ## The session registry: lemmas -/

theorem any_filter_other (es : List (String × Nat)) (now : Nat) (id x : String)
    (hx : ¬ x = id) :
    ((es.filter fun e => !(e.1 == id)).any fun e => e.1 == x && decide (now < e.2)) =
      es.any fun e => e.1 == x && decide (now < e.2) := by
  induction es with
  | nil => rfl
  | cons e es ih =>
    by_cases he : e.1 = id
    · have hex : (e.1 == x) = false := by
        rw [beq_eq_false_iff_ne]
        exact fun h => hx (h.symm.trans he)
      have hf : (!(e.1 == id)) = false := by simp [he]
      simp only [List.filter_cons, hf, Bool.false_eq_true, if_false, List.any_cons, hex,
        Bool.false_and, Bool.false_or, ih]
    · have hf : (!(e.1 == id)) = true := by simp [he]
      simp only [List.filter_cons, hf, if_true, List.any_cons, ih]

theorem Cache.live_put (c : Cache) (now : Nat) (id x : String) :
    (c.put now id).live now x = (decide (x = id) || c.live now x) := by
  have hexp : decide (now < now + defaultExpiration) = true := by
    simp [defaultExpiration, Hour]
  by_cases hx : x = id
  · subst hx
    simp only [Cache.live, Cache.put, List.any_cons, beq_self_eq_true, hexp, Bool.and_self,
      Bool.true_or, decide_True]
  · have hx2 : (id == x) = false := by
      rw [beq_eq_false_iff_ne]
      exact fun h => hx h.symm
    simp only [Cache.live, Cache.put, List.any_cons, hx2, Bool.false_and, Bool.false_or, hx,
      decide_False, any_filter_other c.entries now id x hx]

theorem Cache.put_ids (c : Cache) (now : Nat) (id : String) (h : c.live now id = true) :
    ∀ x ∈ (c.put now id).entries.map Prod.fst, x ∈ c.entries.map Prod.fst := by
  intro x hx
  simp only [Cache.put, List.map_cons, List.mem_cons, List.mem_map, List.mem_filter] at hx
  rcases hx with rfl | ⟨e, ⟨he, _⟩, rfl⟩
  · simp only [Cache.live, List.any_eq_true, Bool.and_eq_true, beq_iff_eq] at h
    obtain ⟨e, he, hid, _⟩ := h
    exact List.mem_map.mpr ⟨e, he, hid⟩
  · exact List.mem_map.mpr ⟨e, he, rfl⟩

theorem allocate_some (src : Nat → Nat → Fin 62) (now : Nat) (fuel : Nat) :
    ∀ (k : Nat) (c : Cache) (id : String) (c1 : Cache),
      allocate src now fuel k c = some (id, c1) →
      ∃ j, k ≤ j ∧ id = RandSessionId (src j) ∧ c.live now id = false ∧ c1 = c.put now id ∧
        ∀ i, k ≤ i → i < j → c.live now (RandSessionId (src i)) = true := by
  induction fuel with
  | zero =>
    intro k c id c1 h
    simp [allocate] at h
  | succ fuel ih =>
    intro k c id c1 h
    by_cases hl : c.live now (RandSessionId (src k)) = true
    · simp only [allocate, Cache.SetIfNotExist, hl, if_true] at h
      obtain ⟨j, hj, hid, hfree, hput, hbusy⟩ := ih (k + 1) c id c1 h
      refine ⟨j, by omega, hid, hfree, hput, ?_⟩
      intro i hki hij
      by_cases hik : i = k
      · rw [hik]
        exact hl
      · exact hbusy i (by omega) hij
    · have hl2 : c.live now (RandSessionId (src k)) = false := by
        simpa using hl
      simp only [allocate, Cache.SetIfNotExist, hl2, Bool.false_eq_true, if_false,
        Option.some.injEq, Prod.mk.injEq] at h
      obtain ⟨hid, hc⟩ := h
      refine ⟨k, le_refl k, hid.symm, by rw [← hid]; exact hl2, by rw [← hc, ← hid], ?_⟩
      intro i hki hik
      omega

theorem allocate_terminates (src : Nat → Nat → Fin 62) (now : Nat) (c : Cache) (j : Nat) :
    ∀ k, c.live now (RandSessionId (src (k + j))) = false →
      ∃ res, allocate src now (j + 1) k c = some res := by
  induction j with
  | zero =>
    intro k h
    simp only [Nat.add_zero] at h
    refine ⟨(RandSessionId (src k), c.put now (RandSessionId (src k))), ?_⟩
    simp only [allocate, Cache.SetIfNotExist, h, Bool.false_eq_true, if_false]
  | succ j ih =>
    intro k h
    by_cases hl : c.live now (RandSessionId (src k)) = true
    · have h2 : c.live now (RandSessionId (src (k + 1 + j))) = false := by
        rw [show k + 1 + j = k + (j + 1) by omega]
        exact h
      obtain ⟨res, hres⟩ := ih (k + 1) h2
      exact ⟨res, by rw [allocate]; simp only [Cache.SetIfNotExist, hl, if_true]; exact hres⟩
    · have hl2 : c.live now (RandSessionId (src k)) = false := by
        simpa using hl
      refine ⟨(RandSessionId (src k), c.put now (RandSessionId (src k))), ?_⟩
      rw [allocate]
      simp only [Cache.SetIfNotExist, hl2, Bool.false_eq_true, if_false]

theorem Values.get?_set (m : Values) (key val : Value) :
    (m.set key val).get? key = some val := by
  induction m with
  | nil => simp [Values.set, Values.get?]
  | cons e m ih =>
    by_cases he : e.1 = key
    · simp [Values.set, Values.get?, he]
    · have hbeq : (e.1 == key) = false := by
        rw [beq_eq_false_iff_ne]
        exact he
      by_cases hany : (m.any fun e => e.1 == key) = true
      · simp only [Values.set, Values.get?, hany, if_true] at ih
        simp only [Values.set, Values.get?, List.any_cons, hbeq, Bool.false_or, hany, if_true,
          List.map_cons, Bool.false_eq_true, if_false, List.find?_cons]
        exact ih
      · simp only [Values.set, Values.get?, hany, Bool.false_eq_true, if_false] at ih
        simp only [Values.set, Values.get?, List.any_cons, hbeq, Bool.false_or, hany,
          Bool.false_eq_true, if_false, List.cons_append, List.find?_cons]
        exact ih

theorem newSession_some (src : Nat → Nat → Fin 62) (now fuel : Nat) (session : GorillaSession)
    (r : Request) (c : Cache) (id : String) (c1 : Cache)
    (h : allocate src now fuel 0 c = some (id, c1)) :
    newSession src now fuel session r c =
      some (.ok ⟨{ session with Values := session.Values.set (.str "session_id") (.str id) }, r⟩,
        c1) := by
  simp only [newSession, h]

/-! ## The session registry: claims -/

/-- C4: when the decoded payload has no `session_id` and the candidates of
`RandSessionId` include one absent from the registry, `CookieStore.Get` returns;
whenever it returns, it returns no error and a session whose `session_id` is a
string, the first candidate absent from `SessionCache` before the call, which is
in `SessionCache` after the call. -/
theorem Get_allocates_fresh_id (s : CookieStore)
    (upstreamGet : Request → String → Option GorillaSession × Option String)
    (src : Nat → Nat → Fin 62) (now : Nat) (r : Request) (name : String)
    (session0 : GorillaSession) (err : Option String)
    (hup : upstreamGet r name = (some session0, err))
    (hno : session0.Values.get? (.str "session_id") = none)
    (hfree : ∃ k, s.SessionCache.live now (RandSessionId (src k)) = false) :
    (∃ fuel sess c, s.Get upstreamGet src now fuel r name = some (.ok sess, c)) ∧
    ∀ fuel res c, s.Get upstreamGet src now fuel r name = some (res, c) →
      ∃ sess id j, res = .ok sess ∧
        sess.session.Values.get? (.str "session_id") = some (.str id) ∧
        id = RandSessionId (src j) ∧
        (∀ i, i < j → s.SessionCache.live now (RandSessionId (src i)) = true) ∧
        s.SessionCache.live now id = false ∧ c.live now id = true := by
  have hval : (if err.isSome = true then ({ session0 with Values := [] } : GorillaSession)
      else session0).Values.get? (.str "session_id") = none := by
    split
    · rfl
    · exact hno
  have hget : ∀ fuel, s.Get upstreamGet src now fuel r name =
      newSession src now fuel
        (if err.isSome = true then { session0 with Values := [] } else session0)
        r s.SessionCache := by
    intro fuel
    simp only [CookieStore.Get, hup, hval]
  constructor
  · obtain ⟨k, hk⟩ := hfree
    obtain ⟨⟨id, c⟩, hres⟩ := allocate_terminates src now s.SessionCache k 0 (by simpa using hk)
    exact ⟨k + 1, _, c, (hget (k + 1)).trans (newSession_some src now (k + 1) _ r _ id c hres)⟩
  · intro fuel res c h
    rw [hget] at h
    cases hal : allocate src now fuel 0 s.SessionCache with
    | none => simp [newSession, hal] at h
    | some p =>
      obtain ⟨id, c1⟩ := p
      simp only [newSession, hal, Option.some.injEq, Prod.mk.injEq] at h
      obtain ⟨hres, hc⟩ := h
      obtain ⟨j, _, hid, hfr, hput, hbusy⟩ := allocate_some src now fuel 0 s.SessionCache id c1 hal
      refine ⟨_, id, j, hres.symm, Values.get?_set _ _ _, hid,
        fun i hi => hbusy i (Nat.zero_le i) hi, hfr, ?_⟩
      rw [← hc, hput, Cache.live_put]
      simp

/-- Witness of C4: a payload without identifier, an empty registry. -/
theorem Get_allocates_fresh_id_witness :
    ∃ fuel sess c, emptyStore.Get anonymousUpstream zeroDraws 0 fuel ⟨""⟩ "sid" =
      some (.ok sess, c) :=
  (Get_allocates_fresh_id emptyStore anonymousUpstream zeroDraws 0 ⟨""⟩ "sid"
    sampleAnonymous none rfl (by decide) ⟨0, by decide⟩).1

/-- C5, as the claim states it, fails: the payload carries an identifier that is
not in the registry, the generator draws that same identifier, and `Get` returns
it: the new identifier is not different from the old one. -/
theorem Get_expired_may_reuse_id :
    samplePayload.Values.get? (.str "session_id") = some (.str "0000000000") ∧
    emptyStore.SessionCache.live 0 "0000000000" = false ∧
    emptyStore.Get sampleUpstream zeroDraws 0 1 ⟨""⟩ "sid" =
      some (.ok ⟨⟨"sid", [(.str "session_id", .str "0000000000")]⟩, ⟨""⟩⟩,
        ⟨[("0000000000", Hour)]⟩) := by
  refine ⟨by decide, by decide, ?_⟩
  have hid : RandSessionId (zeroDraws 0) = "0000000000" := by decide
  have hget : (emptyStore.SessionCache.Get 0 "0000000000") = (emptyStore.SessionCache, false) := by
    decide
  have hset : emptyStore.SessionCache.SetIfNotExist 0 "0000000000" =
      (⟨[("0000000000", Hour)]⟩, true) := by
    decide
  have hval : samplePayload.Values.get? (.str "session_id") = some (.str "0000000000") := by
    decide
  simp only [CookieStore.Get, sampleUpstream, Option.isSome_none, Bool.false_eq_true, if_false,
    hval, hget, newSession, allocate, hid, hset]
  rfl

/-- C5, amended: when the decoded payload carries a string `session_id` that is
not present in `SessionCache` and the candidates of `RandSessionId` include one
absent from the registry, `CookieStore.Get` returns; whenever it returns, it
returns no error and a payload with exactly one entry, `session_id`, whose value
is the first candidate absent from `SessionCache` before the call, which is in
`SessionCache` after the call. -/
theorem Get_expired_session_reallocates (s : CookieStore)
    (upstreamGet : Request → String → Option GorillaSession × Option String)
    (src : Nat → Nat → Fin 62) (now : Nat) (r : Request) (name : String)
    (session0 : GorillaSession) (oldId : String)
    (hup : upstreamGet r name = (some session0, none))
    (hid : session0.Values.get? (.str "session_id") = some (.str oldId))
    (hexp : s.SessionCache.live now oldId = false)
    (hfree : ∃ k, s.SessionCache.live now (RandSessionId (src k)) = false) :
    (∃ fuel sess c, s.Get upstreamGet src now fuel r name = some (.ok sess, c)) ∧
    ∀ fuel res c, s.Get upstreamGet src now fuel r name = some (res, c) →
      ∃ sess id j, res = .ok sess ∧
        sess.session.Values = [(.str "session_id", .str id)] ∧
        id = RandSessionId (src j) ∧
        (∀ i, i < j → s.SessionCache.live now (RandSessionId (src i)) = true) ∧
        s.SessionCache.live now id = false ∧ c.live now id = true := by
  have hget : ∀ fuel, s.Get upstreamGet src now fuel r name =
      newSession src now fuel { session0 with Values := [] } r s.SessionCache := by
    intro fuel
    simp [CookieStore.Get, hup, hid, Cache.Get, hexp]
  constructor
  · obtain ⟨k, hk⟩ := hfree
    obtain ⟨⟨id, c⟩, hres⟩ := allocate_terminates src now s.SessionCache k 0 (by simpa using hk)
    exact ⟨k + 1, _, c, (hget (k + 1)).trans (newSession_some src now (k + 1) _ r _ id c hres)⟩
  · intro fuel res c h
    rw [hget] at h
    cases hal : allocate src now fuel 0 s.SessionCache with
    | none => simp [newSession, hal] at h
    | some p =>
      obtain ⟨id, c1⟩ := p
      simp only [newSession, hal, Option.some.injEq, Prod.mk.injEq] at h
      obtain ⟨hres, hc⟩ := h
      obtain ⟨j, _, hid2, hfr, hput, hbusy⟩ :=
        allocate_some src now fuel 0 s.SessionCache id c1 hal
      refine ⟨_, id, j, hres.symm, by simp [Values.set], hid2,
        fun i hi => hbusy i (Nat.zero_le i) hi, hfr, ?_⟩
      rw [← hc, hput, Cache.live_put]
      simp

/-- Witness of the amended C5: the payload `samplePayload`, an empty registry. -/
theorem Get_expired_session_reallocates_witness :
    ∃ fuel sess c, emptyStore.Get sampleUpstream zeroDraws 0 fuel ⟨""⟩ "sid" =
      some (.ok sess, c) :=
  (Get_expired_session_reallocates emptyStore sampleUpstream zeroDraws 0 ⟨""⟩ "sid"
    samplePayload "0000000000" rfl (by decide) (by decide) ⟨0, by decide⟩).1

/-- C6: when the decoded payload carries a string `session_id` that is present in
`SessionCache`, `CookieStore.Get` returns no error and a session whose payload is
the decoded payload, and the call adds no identifier to `SessionCache`: the
identifiers present afterwards are those present before. -/
theorem Get_live_session_unchanged (s : CookieStore)
    (upstreamGet : Request → String → Option GorillaSession × Option String)
    (src : Nat → Nat → Fin 62) (now fuel : Nat) (r : Request) (name : String)
    (session0 : GorillaSession) (id : String)
    (hup : upstreamGet r name = (some session0, none))
    (hid : session0.Values.get? (.str "session_id") = some (.str id))
    (hlive : s.SessionCache.live now id = true) :
    ∃ c, s.Get upstreamGet src now fuel r name = some (.ok ⟨session0, r⟩, c) ∧
      (∀ x, c.live now x = s.SessionCache.live now x) ∧
      ∀ x ∈ c.entries.map Prod.fst, x ∈ s.SessionCache.entries.map Prod.fst := by
  refine ⟨s.SessionCache.put now id, by simp [CookieStore.Get, hup, hid, Cache.Get, hlive],
    ?_, Cache.put_ids s.SessionCache now id hlive⟩
  intro x
  rw [Cache.live_put]
  by_cases hx : x = id
  · subst hx
    simp [hlive]
  · simp [hx]

/-- Witness of C6: the payload `samplePayload`, its identifier in the registry. -/
theorem Get_live_session_unchanged_witness :
    ∃ c, liveStore.Get sampleUpstream zeroDraws 0 0 ⟨""⟩ "sid" =
        some (.ok ⟨samplePayload, ⟨""⟩⟩, c) ∧
      (∀ x, c.live 0 x = liveStore.SessionCache.live 0 x) ∧
      ∀ x ∈ c.entries.map Prod.fst, x ∈ liveStore.SessionCache.entries.map Prod.fst :=
  Get_live_session_unchanged liveStore sampleUpstream zeroDraws 0 0 ⟨""⟩ "sid"
    samplePayload "0000000000" rfl (by decide) (by decide)

end Apibox
